import Mathlib

/-!
Verification of the utility module of the cf-scripts repository
(conda_forge_tick/utils.py), via a shallow embedding in Lean 4.

JSON documents are modelled by the inductive type JValue.  The file system
is modelled as a partial map from paths to parsed JSON objects: the lazy
store only ever writes JSON objects (it writes an empty object at
construction and its dict cache on every dump), so files touched by the
store are modelled at the parsed-object level.  Directory creation
(os.makedirs with exist_ok) always succeeds and is abstracted away.
Python exceptions (FileNotFoundError, KeyError) are modelled by Option:
none is a raised exception.
-/

/-- A JSON value, as produced by json.load. -/
inductive JValue where
  | jnull
  | jbool (b : Bool)
  | jnum (n : Int)
  | jstr (s : String)
  | jarr (items : List JValue)
  | jobj (entries : List (String × JValue))

/-- A JSON object (Python dict decoded from a file): an association list
preserving insertion order, mirroring dict key order. -/
def JObj : Type := List (String × JValue)

/-- Python dict lookup d[k]: the value at the first matching key. -/
def jlookup (k : String) : JObj → Option JValue
  | [] => none
  | (k2, v) :: rest => if k2 = k then some v else jlookup k rest

/-- Python dict assignment d[k] = v: replace the value at an existing key
in place, otherwise append the new binding at the end. -/
def setKey (k : String) (v : JValue) : JObj → JObj
  | [] => [(k, v)]
  | (k2, v2) :: rest => if k2 = k then (k, v) :: rest else (k2, v2) :: setKey k v rest

/-- The file system: a map from file paths to the parsed JSON object the
file holds, with none for a missing file. -/
def FS : Type := String → Option JObj

/-- Writing a JSON object to a file (open with mode w followed by
json.dump). -/
def updateFS (fs : FS) (path : String) (d : JObj) : FS :=
  fun q => if q = path then some d else fs q

/-- The head of os.path.split(p): CPython keeps the prefix of p up to and
including the last slash, then strips the trailing slashes of that prefix
unless it consists only of slashes.  The head is empty exactly when p
contains no slash (a bare filename). -/
def pathSplitHead (p : String) : String :=
  let tailLen := (p.data.reverse.takeWhile (fun c => c ≠ '/')).length
  let head := p.data.take (p.data.length - tailLen)
  if head.isEmpty || head.all (fun c => c = '/') then ⟨head⟩
  else ⟨(head.reverse.dropWhile (fun c => c = '/')).reverse⟩

/-- The LazyJson store: a file path together with the in-memory cache,
which is none while unloaded (self.data is None). -/
structure LazyJson where
  file_name : String
  data : Option JObj

namespace LazyJson

/-- LazyJson.__init__: when the file is missing, run os.makedirs with
exist_ok on the head of os.path.split of the path, then write an empty
JSON object to the file.  makedirs creates any missing directories and
succeeds whenever that head is non-empty, but applied to the empty string
it raises FileNotFoundError, so construction at a missing bare filename
raises before anything is written; none models that raise.  When the file
already exists nothing is touched.  The cache is left unloaded. -/
def init (fs : FS) (file_name : String) : Option (FS × LazyJson) :=
  match fs file_name with
  | some _ => some (fs, ⟨file_name, none⟩)
  | none =>
    if pathSplitHead file_name = "" then none
    else some (updateFS fs file_name [], ⟨file_name, none⟩)

/-- LazyJson._load: return the cache if already loaded, otherwise read and
decode the backing file; none models the FileNotFoundError raised when the
file is missing. -/
def _load (fs : FS) (lj : LazyJson) : Option JObj :=
  match lj.data with
  | some d => some d
  | none => fs lj.file_name

/-- LazyJson._dump: load (a no-op when the cache is present), then write
the whole cache back to the backing file.  Returns the updated file system
and the store with its cache loaded. -/
def _dump (fs : FS) (lj : LazyJson) : Option (FS × LazyJson) :=
  match _load fs lj with
  | none => none
  | some d => some (updateFS fs lj.file_name d, { lj with data := some d })

/-- LazyJson.__setitem__: load, assign into the cache, then dump. -/
def setitem (fs : FS) (lj : LazyJson) (key : String) (value : JValue) :
    Option (FS × LazyJson) :=
  match _load fs lj with
  | none => none
  | some d => _dump fs { lj with data := some (setKey key value d) }

/-- LazyJson.__getitem__: load, then index the cache; none models both the
missing-file and missing-key exceptions. -/
def getitem (fs : FS) (lj : LazyJson) (item : String) :
    Option (LazyJson × JValue) :=
  match _load fs lj with
  | none => none
  | some d =>
    match jlookup item d with
    | none => none
    | some v => some ({ lj with data := some d }, v)

/-- LazyJson.__len__: load, then the number of entries of the cache. -/
def len (fs : FS) (lj : LazyJson) : Option (LazyJson × Nat) :=
  match _load fs lj with
  | none => none
  | some d => some ({ lj with data := some d }, d.length)

end LazyJson

/-- Insert a string into an already sorted list of strings (helper for
the Python builtin sorted, which sorts strings lexicographically). -/
def insertSorted (s : String) : List String → List String
  | [] => [s]
  | t :: rest => if s ≤ t then s :: t :: rest else t :: insertSorted s rest

/-- The Python builtin sorted on a list of strings. -/
def sortStrings : List String → List String
  | [] => []
  | s :: rest => insertSorted s (sortStrings rest)

/-- The record built by frozen_to_json_friendly: the sorted key list, the
data mapping, and the optional PR reference (none when the key PR is
absent from the returned dict). -/
structure FrozenRecord where
  keys : List String
  data : JObj
  PR : Option LazyJson

/-- frozen_to_json_friendly(fz, PR): builds the dict with keys and data,
then attaches PR under key PR only when the condition if PR: holds.
Python truthiness of a LazyJson has no __bool__ and falls back to __len__,
which triggers _load; so the PR key is attached only when the loaded
mapping is non-empty, and a load failure (missing backing file) raises,
modelled by none. -/
def frozen_to_json_friendly (fs : FS) (fz : JObj) (PR : Option LazyJson) :
    Option FrozenRecord :=
  let keys := sortStrings (fz.map Prod.fst)
  match PR with
  | none => some ⟨keys, fz, none⟩
  | some lj =>
    match LazyJson.len fs lj with
    | none => none
    | some (lj2, n) => some ⟨keys, fz, if n ≠ 0 then some lj2 else none⟩

/-- The character class of pin_sep_pat: space, greater, less, equals or
opening bracket. -/
def isSepChar (c : Char) : Bool :=
  c = ' ' || c = '>' || c = '<' || c = '=' || c = '['

/-- The first field of re.split with pin_sep_pat: the prefix of the
string before the first separator character (the whole string when no
separator occurs). -/
def pinSepSplitHead (s : List Char) : List Char :=
  s.takeWhile (fun c => !isSepChar c)

/-- pin_sep_pat.split(x)[0].lower(): strip at the first separator, then
lower-case (Python str.lower; the recipe names are ASCII). -/
def normName (x : String) : String :=
  ⟨(pinSepSplitHead x.data).map Char.toLower⟩

/-- A requirements section value: null, a flat list of entries, or a
mapping with build, host and run entry lists.  An entry is none for a
null list element.  In the mapping case each field holds the value of
req.get(key, []) or [], which collapses an absent key and a null value to
the empty list.  (An empty mapping is falsy in the source and returns the
empty set there, which coincides with processing three empty lists.) -/
inductive ReqSection where
  | rnull
  | rlist (entries : List (Option String))
  | rdict (build host run : List (Option String))

/-- One element of the outputs list of a recipe document; its field holds
output.get(requirements, ...) with absent and null collapsed to an empty
mapping. -/
structure RecipeOutput where
  requirements : ReqSection

/-- The slice of a parsed meta.yaml dict read by get_requirements: the
top-level requirements section and the outputs list (none when the key is
absent or its value null, matching meta_yaml.get(..., []) or []). -/
structure MetaYaml where
  requirements : ReqSection
  outputs : Option (List RecipeOutput)

/-- _parse_requirements(req, build=, host=, run=): a falsy section gives
the empty set; a flat list feeds every entry when host or run is enabled;
a mapping concatenates the enabled build, host and run lists.  Null
entries are dropped, the rest are normalised and collected into a set. -/
def _parse_requirements (req : ReqSection) (build host run : Bool) :
    Finset String :=
  match req with
  | .rnull => ∅
  | .rlist entries =>
    if entries.isEmpty then ∅
    else (((if host || run then entries else []).filterMap id).map normName).toFinset
  | .rdict b h r =>
    ((((if build then b else []) ++ (if host then h else []) ++
        (if run then r else [])).filterMap id).map normName).toFinset

/-- get_requirements(meta_yaml, outputs=, build=, host=, run=): parse the
top-level requirements, then union in each enabled output section. -/
def get_requirements (my : MetaYaml) (outputs build host run : Bool) :
    Finset String :=
  let outs := if outputs then my.outputs.getD [] else []
  outs.foldl (fun reqs o => reqs ∪ _parse_requirements o.requirements build host run)
    (_parse_requirements my.requirements build host run)

/-- Modelled from the spec (section 4.7 normalisation rule): split the
entry text at the first occurrence of a space, greater, less, equals or
opening bracket character, and lower-case the result.  Written with an
explicit first-occurrence index, to be compared with the source embedding
normName. -/
def specStripName (x : String) : String :=
  ⟨((x.data.take (x.data.findIdx isSepChar)).map Char.toLower)⟩

/-- Modelled from the spec: the entries a section contributes when every
inclusion flag is enabled. -/
def specSectionEntries : ReqSection → List (Option String)
  | .rnull => []
  | .rlist entries => entries
  | .rdict b h r => b ++ h ++ r

/-- Modelled from the spec: with all flags enabled, the set obtained from
the top-level section and every output section by dropping null entries,
stripping at the first separator, lower-casing and deduplicating. -/
def specRequirements (my : MetaYaml) : Finset String :=
  let entries := specSectionEntries my.requirements ++
    (my.outputs.getD []).flatMap (fun o => specSectionEntries o.requirements)
  ((entries.filterMap id).map specStripName).toFinset

/-- The normalised name set contributed by a list of entries: drop the
null entries, normalise each remaining one, deduplicate. -/
def entryNames (l : List (Option String)) : Finset String :=
  ((l.filterMap id).map normName).toFinset

/-- The example requirements section of the spec: build numpy at least
one, host python, run numpy and scipy with a selector. -/
def exampleMeta : MetaYaml :=
  ⟨.rdict [some "numpy >=1.0"] [some "python"] [some "numpy", some "scipy[test]"],
   none⟩

/-- A networkx-style directed graph: a node set and an edge set (simple
digraph, no parallel edges). -/
structure DiGraph (V : Type) where
  nodes : Finset V
  edges : Finset (V × V)

namespace DiGraph

variable {V : Type} [DecidableEq V]

/-- G.remove_node(n): drop the node and every incident edge. -/
def remove_node (G : DiGraph V) (n : V) : DiGraph V :=
  ⟨G.nodes.erase n, G.edges.filter (fun e => e.1 ≠ n ∧ e.2 ≠ n)⟩

/-- G.add_edges_from(es): add the edges, together with any endpoint not
yet a node (networkx adds missing endpoints silently). -/
def add_edges_from (G : DiGraph V) (es : Finset (V × V)) : DiGraph V :=
  ⟨G.nodes ∪ es.image Prod.fst ∪ es.image Prod.snd, G.edges ∪ es⟩

/-- The set comprehension over G.in_edges(node_id) minus the node itself:
the distinct predecessors, self-loop excluded. -/
def pluckPreds (G : DiGraph V) (n : V) : Finset V :=
  (G.edges.filter (fun e => e.2 = n)).image Prod.fst \ {n}

/-- The set comprehension over G.out_edges(node_id) minus the node itself:
the distinct successors, self-loop excluded. -/
def pluckSuccs (G : DiGraph V) (n : V) : Finset V :=
  (G.edges.filter (fun e => e.1 = n)).image Prod.snd \ {n}

/-- pluck(G, node_id): when the node is present, fuse every predecessor
to every successor, remove the node, and add the fused edges; otherwise
do nothing. -/
def pluck (G : DiGraph V) (n : V) : DiGraph V :=
  if n ∈ G.nodes then
    (G.remove_node n).add_edges_from (pluckPreds G n ×ˢ pluckSuccs G n)
  else G

end DiGraph

/-- The example graph of the spec: nodes A, B, C with edges from A to B
and from B to C. -/
def exampleGraph : DiGraph String :=
  ⟨{"A", "B", "C"}, {("A", "B"), ("B", "C")}⟩

/-- A Python value flowing through the JSON codec: the JSON-compatible
values plus a LazyJson object, of which the codec only touches the
file_name attribute.  The file_name is itself a decoded value, because
object_hook passes whatever sits under the tag key to the constructor. -/
inductive PyVal where
  | vnull
  | vbool (b : Bool)
  | vnum (n : Int)
  | vstr (s : String)
  | vlist (items : List PyVal)
  | vdict (entries : List (String × PyVal))
  | vlazy (file_name : PyVal)

/-- Lookup in a decoded dict (first occurrence of the key). -/
def pvLookup (k : String) : List (String × PyVal) → Option PyVal
  | [] => none
  | (k2, v) :: rest => if k2 = k then some v else pvLookup k rest

/-- object_hook(dct): when the tag key __lazy_json__ is present, build a
LazyJson bound to the tagged value; otherwise pass the dict through. -/
def object_hook (dct : List (String × PyVal)) : PyVal :=
  match pvLookup "__lazy_json__" dct with
  | some v => .vlazy v
  | none => .vdict dct

mutual

/-- dumps at the JSON-structure level: native values serialize
structurally, and a LazyJson goes through the default hook, which emits
the one-entry tagged object around its file_name.  (The string-level
options of dumps, sorted keys and compact separators, sit below the
granularity of this model.) -/
def dumps : PyVal → JValue
  | .vnull => .jnull
  | .vbool b => .jbool b
  | .vnum n => .jnum n
  | .vstr s => .jstr s
  | .vlist items => .jarr (dumpsList items)
  | .vdict entries => .jobj (dumpsEntries entries)
  | .vlazy p => .jobj [("__lazy_json__", dumps p)]

/-- dumps mapped over a JSON array. -/
def dumpsList : List PyVal → List JValue
  | [] => []
  | x :: xs => dumps x :: dumpsList xs

/-- dumps mapped over the entries of a JSON object. -/
def dumpsEntries : List (String × PyVal) → List (String × JValue)
  | [] => []
  | (k, v) :: rest => (k, dumps v) :: dumpsEntries rest

end

mutual

/-- loads at the JSON-structure level: decode structurally, applying
object_hook to every decoded object, innermost first, exactly as
json.loads does. -/
def loads : JValue → PyVal
  | .jnull => .vnull
  | .jbool b => .vbool b
  | .jnum n => .vnum n
  | .jstr s => .vstr s
  | .jarr items => .vlist (loadsList items)
  | .jobj entries => object_hook (loadsEntries entries)

/-- loads mapped over a JSON array. -/
def loadsList : List JValue → List PyVal
  | [] => []
  | x :: xs => loads x :: loadsList xs

/-- loads mapped over the entries of a JSON object. -/
def loadsEntries : List (String × JValue) → List (String × PyVal)
  | [] => []
  | (k, v) :: rest => (k, loads v) :: loadsEntries rest

end

/-- The resource handed out by the executor context manager, or the
NotImplementedError raised before anything is acquired.  Each resource
constructor records only the parameters of its acquisition; the matching
completion iterator is determined by the constructor. -/
inductive ExecutorResult where
  | threadPool (max_workers : Nat)
  | processPool (max_workers : Nat)
  | daskClient (n_workers : Nat)
  | notImplementedError (msg : String)

/-- executor(kind, max_workers): dispatch on the kind string; an
unrecognised kind raises NotImplementedError without acquiring any pool,
cluster or client. -/
def executor (kind : String) (max_workers : Nat) : ExecutorResult :=
  if kind = "thread" then .threadPool max_workers
  else if kind = "process" then .processPool max_workers
  else if kind = "dask" then .daskClient max_workers
  else .notImplementedError "That kind is not implemented"

namespace UniversalSet

/-- UniversalSet.__and__(self, other): return the other operand. -/
def and_ {V : Type} (other : Finset V) : Finset V := other

/-- UniversalSet.__rand__(self, other): return the other operand. -/
def rand_ {V : Type} (other : Finset V) : Finset V := other

/-- UniversalSet.__contains__(self, item): always true. -/
def contains {V : Type} (_item : V) : Bool := true

/-- UniversalSet.__next__: raise StopIteration at once; the iterator
state is trivial because __iter__ returns the object itself. -/
def next {V : Type} : Option (V × Unit) := none

end UniversalSet

/-- Drain an iterator for a bounded number of steps, collecting the
yielded elements until the iterator signals exhaustion. -/
def iterateFor {V : Type} (next : Unit → Option (V × Unit)) :
    Nat → Unit → List V
  | 0, _ => []
  | Nat.succ n, s =>
    match next s with
    | none => []
    | some (x, s2) => x :: iterateFor next n s2

/-- Concrete file system for witnesses: one file at x.json holding the
empty object. -/
def fsEmptyX : FS := fun p => if p = "x.json" then some [] else none

/-- Concrete unloaded store over x.json for witnesses. -/
def ljX : LazyJson := ⟨"x.json", none⟩

theorem jlookup_setKey (k : String) (v : JValue) (d : JObj) :
    jlookup k (setKey k v d) = some v := by
  induction d with
  | nil => simp [setKey, jlookup]
  | cons hd tl ih =>
    obtain ⟨k2, v2⟩ := hd
    by_cases hk : k2 = k
    · simp [setKey, hk, jlookup]
    · simp [setKey, hk, jlookup, ih]

/-- C1: setting key a to 1 on a loadable lazy store, then constructing a
fresh LazyJson over the same path, round-trips: the lookup of a on the
fresh store returns 1, because the mutation was written through to the
backing file. -/
theorem lazyjson_set_roundtrip (fs : FS) (lj : LazyJson) (d0 : JObj)
    (h : LazyJson._load fs lj = some d0) :
    (LazyJson.setitem fs lj "a" (JValue.jnum 1)).bind
      (fun r => (LazyJson.init r.1 lj.file_name).bind
        (fun p => (LazyJson.getitem p.1 p.2 "a").map (fun q => q.2))) =
      some (JValue.jnum 1) := by
  have hset : LazyJson.setitem fs lj "a" (JValue.jnum 1) =
      some (updateFS fs lj.file_name (setKey "a" (JValue.jnum 1) d0),
        ⟨lj.file_name, some (setKey "a" (JValue.jnum 1) d0)⟩) := by
    simp only [LazyJson.setitem, h]
    simp [LazyJson._dump, LazyJson._load]
  have hfs : updateFS fs lj.file_name (setKey "a" (JValue.jnum 1) d0)
      lj.file_name = some (setKey "a" (JValue.jnum 1) d0) := by
    simp [updateFS]
  simp [hset, LazyJson.init, hfs, LazyJson.getitem, LazyJson._load,
    jlookup_setKey]

/-- Witness for C1 at a concrete store over x.json. -/
theorem lazyjson_set_roundtrip_witness :
    LazyJson._load fsEmptyX ljX = some [] ∧
    (LazyJson.setitem fsEmptyX ljX "a" (JValue.jnum 1)).bind
      (fun r => (LazyJson.init r.1 ljX.file_name).bind
        (fun p => (LazyJson.getitem p.1 p.2 "a").map (fun q => q.2))) =
      some (JValue.jnum 1) :=
  ⟨rfl, lazyjson_set_roundtrip fsEmptyX ljX [] rfl⟩

/-- C5 counterexample: at the missing bare filename graph.json the
constructor calls os.makedirs on the empty directory head, which raises
FileNotFoundError: construction fails and no empty object is written, so
the claim fails for this path. -/
theorem lazyjson_init_fresh_counterexample :
    ((fun _ => none : FS) "graph.json" = none) ∧
    LazyJson.init (fun _ => none) "graph.json" = none :=
  ⟨rfl, rfl⟩

/-- C5 amended: constructing a LazyJson at a missing path whose directory
head is non-empty writes the empty object, leaves the cache unloaded, and
a subsequent length query returns 0; at a missing path whose directory
head is empty (a bare filename) construction raises FileNotFoundError
from os.makedirs and writes nothing. -/
theorem lazyjson_init_fresh_amended (fs : FS) (path : String)
    (h : fs path = none) :
    (pathSplitHead path ≠ "" →
      LazyJson.init fs path = some (updateFS fs path [], ⟨path, none⟩) ∧
      updateFS fs path [] path = some [] ∧
      LazyJson.len (updateFS fs path []) ⟨path, none⟩ =
        some (⟨path, some []⟩, 0)) ∧
    (pathSplitHead path = "" → LazyJson.init fs path = none) := by
  constructor
  · intro hd
    refine ⟨?_, ?_, ?_⟩
    · simp [LazyJson.init, h, hd]
    · simp [updateFS]
    · simp [LazyJson.len, LazyJson._load, updateFS]
  · intro hd
    simp [LazyJson.init, h, hd]

/-- Witness for the amended C5 at a missing path inside directory d. -/
theorem lazyjson_init_fresh_amended_witness :
    ((fun _ => none : FS) "d/x.json" = none) ∧
    ((pathSplitHead "d/x.json" ≠ "" →
      LazyJson.init (fun _ => none) "d/x.json" =
        some (updateFS (fun _ => none) "d/x.json" [], ⟨"d/x.json", none⟩) ∧
      updateFS (fun _ => none) "d/x.json" [] "d/x.json" = some [] ∧
      LazyJson.len (updateFS (fun _ => none) "d/x.json" []) ⟨"d/x.json", none⟩ =
        some (⟨"d/x.json", some []⟩, 0)) ∧
     (pathSplitHead "d/x.json" = "" →
      LazyJson.init (fun _ => none) "d/x.json" = none)) :=
  ⟨rfl, lazyjson_init_fresh_amended (fun _ => none) "d/x.json" rfl⟩

/-- Concrete file system for witnesses: one file at pr.json holding an
object with a single entry. -/
def fsOneA : FS :=
  fun p => if p = "pr.json" then some [("a", JValue.jnum 1)] else none

/-- Concrete unloaded store over pr.json for witnesses. -/
def ljPR : LazyJson := ⟨"pr.json", none⟩

/-- The record frozen_to_json_friendly produces over fsOneA with ljPR
attached. -/
def prRecordEx : FrozenRecord :=
  ⟨[], [], some ⟨"pr.json", some [("a", JValue.jnum 1)]⟩⟩

/-- C6 counterexample: a LazyJson reference over a file holding the empty
object is passed as PR, yet the returned record carries no PR field: the
source guards the attachment with if PR:, whose truthiness goes through
__len__, and the empty store is falsy. -/
theorem frozen_to_json_friendly_pr_counterexample :
    frozen_to_json_friendly fsEmptyX [] (some ljX) =
      some ⟨[], [], none⟩ ∧ (some ljX).isSome = true :=
  ⟨rfl, rfl⟩

/-- C6 amended: the record has the sorted key list and the full data, and
the PR field is attached exactly when a reference was passed whose loaded
mapping is non-empty (the truthiness test if PR: falls back to __len__). -/
theorem frozen_to_json_friendly_pr_amended (fs : FS) (fz : JObj)
    (PR : Option LazyJson) (r : FrozenRecord)
    (h : frozen_to_json_friendly fs fz PR = some r) :
    r.keys = sortStrings (fz.map Prod.fst) ∧ r.data = fz ∧
    (r.PR.isSome ↔ ∃ lj lj2 n, PR = some lj ∧
      LazyJson.len fs lj = some (lj2, n) ∧ n ≠ 0) := by
  cases PR with
  | none =>
    simp only [frozen_to_json_friendly] at h
    obtain rfl : (⟨sortStrings (fz.map Prod.fst), fz, none⟩ : FrozenRecord) = r :=
      Option.some_injective _ h
    simp
  | some lj =>
    simp only [frozen_to_json_friendly] at h
    cases hlen : LazyJson.len fs lj with
    | none => rw [hlen] at h; exact absurd h (by simp)
    | some p =>
      obtain ⟨lj2, n⟩ := p
      rw [hlen] at h
      obtain rfl : (⟨sortStrings (fz.map Prod.fst), fz,
          if n ≠ 0 then some lj2 else none⟩ : FrozenRecord) = r :=
        Option.some_injective _ h
      refine ⟨rfl, rfl, ?_⟩
      by_cases hn : n = 0
      · subst hn
        simp only [ne_eq, not_true_eq_false, if_neg, ite_false]
        simp only [Option.isSome_none, Bool.false_eq_true, false_iff]
        rintro ⟨lj3, lj4, m, hinj, hlen2, hm⟩
        obtain rfl : lj = lj3 := Option.some_injective _ hinj
        rw [hlen] at hlen2
        obtain ⟨-, hm0⟩ := Prod.mk.injEq .. ▸ (Option.some_injective _ hlen2)
        exact hm hm0.symm
      · simp only [ne_eq, hn, not_false_eq_true, if_pos, ite_true,
          Option.isSome_some, true_iff]
        exact ⟨lj, lj2, n, rfl, hlen, hn⟩

/-- Witness for the amended C6 at a store whose loaded mapping has one
entry. -/
theorem frozen_to_json_friendly_pr_amended_witness :
    prRecordEx.keys = sortStrings (([] : JObj).map Prod.fst) ∧
    prRecordEx.data = ([] : JObj) ∧
    (prRecordEx.PR.isSome ↔ ∃ lj lj2 n, (some ljPR : Option LazyJson) = some lj ∧
      LazyJson.len fsOneA lj = some (lj2, n) ∧ n ≠ 0) :=
  frozen_to_json_friendly_pr_amended fsOneA [] (some ljPR) prRecordEx rfl

/-- C4: the codec encodes a LazyJson bound to any path as the one-entry
tagged object around the path, and decodes that tagged object back to a
LazyJson bound to the same path: a round trip on the file binding. -/
theorem codec_lazyjson_roundtrip : ∀ path : String,
    dumps (.vlazy (.vstr path)) = .jobj [("__lazy_json__", .jstr path)] ∧
    loads (.jobj [("__lazy_json__", .jstr path)]) = .vlazy (.vstr path) := by
  intro path
  constructor
  · simp [dumps]
  · simp [loads, loadsEntries, loadsList, object_hook, pvLookup]

/-- C7: every kind string other than thread, process and dask makes the
executor context raise NotImplementedError; the model acquires no pool,
cluster or client on that branch. -/
theorem executor_unknown_kind (kind : String) (max_workers : Nat)
    (h1 : kind ≠ "thread") (h2 : kind ≠ "process") (h3 : kind ≠ "dask") :
    executor kind max_workers =
      .notImplementedError "That kind is not implemented" := by
  simp [executor, h1, h2, h3]

/-- Witness for C7 at the kind magic. -/
theorem executor_unknown_kind_witness :
    ("magic" ≠ "thread" ∧ "magic" ≠ "process" ∧ "magic" ≠ "dask") ∧
    executor "magic" 4 = .notImplementedError "That kind is not implemented" :=
  ⟨⟨by decide, by decide, by decide⟩,
    executor_unknown_kind "magic" 4 (by decide) (by decide) (by decide)⟩

/-- C8: the UniversalSet is a two-sided identity for set intersection:
both operand orders return the other set unchanged. -/
theorem universalset_inter_identity : ∀ (V : Type) (S : Finset V),
    UniversalSet.and_ S = S ∧ UniversalSet.rand_ S = S :=
  fun _ _ => ⟨rfl, rfl⟩

/-- C9: the UniversalSet reports every candidate as a member, yet its
iterator is immediately exhausted: draining it for any number of steps
yields no elements.  Both halves hold simultaneously. -/
theorem universalset_contains_iter_asymmetry : ∀ (V : Type) (x : V) (fuel : Nat),
    UniversalSet.contains x = true ∧
    iterateFor (fun _ => (UniversalSet.next : Option (V × Unit))) fuel () = [] := by
  intro V x fuel
  refine ⟨rfl, ?_⟩
  cases fuel <;> simp [iterateFor, UniversalSet.next]

theorem pluckPreds_subset_erase {V : Type} [DecidableEq V] (G : DiGraph V)
    (n : V) (hwf : ∀ e ∈ G.edges, e.1 ∈ G.nodes ∧ e.2 ∈ G.nodes) :
    DiGraph.pluckPreds G n ⊆ G.nodes.erase n := by
  intro x hx
  rw [DiGraph.pluckPreds, Finset.mem_sdiff] at hx
  obtain ⟨hx1, hx2⟩ := hx
  rw [Finset.mem_image] at hx1
  obtain ⟨e, he, rfl⟩ := hx1
  rw [Finset.mem_filter] at he
  exact Finset.mem_erase.mpr ⟨by simpa using hx2, (hwf e he.1).1⟩

theorem pluckSuccs_subset_erase {V : Type} [DecidableEq V] (G : DiGraph V)
    (n : V) (hwf : ∀ e ∈ G.edges, e.1 ∈ G.nodes ∧ e.2 ∈ G.nodes) :
    DiGraph.pluckSuccs G n ⊆ G.nodes.erase n := by
  intro x hx
  rw [DiGraph.pluckSuccs, Finset.mem_sdiff] at hx
  obtain ⟨hx1, hx2⟩ := hx
  rw [Finset.mem_image] at hx1
  obtain ⟨e, he, rfl⟩ := hx1
  rw [Finset.mem_filter] at he
  exact Finset.mem_erase.mpr ⟨by simpa using hx2, (hwf e he.1).2⟩

/-- C2: on a graph whose edges join existing nodes, plucking a present
node removes exactly that node, and the surviving edges are the edges not
incident to it together with the full cross product of its distinct
predecessors and successors (self-loops excluded); plucking an absent
node changes nothing.  In particular the example graph A to B to C loses
B and gains the single fused edge from A to C. -/
theorem pluck_correct {V : Type} [DecidableEq V] (G : DiGraph V) (n : V)
    (hwf : ∀ e ∈ G.edges, e.1 ∈ G.nodes ∧ e.2 ∈ G.nodes) :
    ((n ∈ G.nodes →
      (DiGraph.pluck G n).nodes = G.nodes.erase n ∧
      ∀ e : V × V, e ∈ (DiGraph.pluck G n).edges ↔
        ((e ∈ G.edges ∧ e.1 ≠ n ∧ e.2 ≠ n) ∨
         (e.1 ∈ DiGraph.pluckPreds G n ∧ e.2 ∈ DiGraph.pluckSuccs G n))) ∧
     (n ∉ G.nodes → DiGraph.pluck G n = G)) ∧
    ((DiGraph.pluck exampleGraph "B").nodes = {"A", "C"} ∧
     (DiGraph.pluck exampleGraph "B").edges = {("A", "C")}) := by
  refine ⟨⟨?_, ?_⟩, by decide, by decide⟩
  · intro hn
    constructor
    · simp only [DiGraph.pluck, if_pos hn, DiGraph.add_edges_from,
        DiGraph.remove_node]
      have h1 : (DiGraph.pluckPreds G n ×ˢ DiGraph.pluckSuccs G n).image
          Prod.fst ⊆ G.nodes.erase n := by
        intro x hx
        rw [Finset.mem_image] at hx
        obtain ⟨e, he, rfl⟩ := hx
        rw [Finset.mem_product] at he
        exact pluckPreds_subset_erase G n hwf he.1
      have h2 : (DiGraph.pluckPreds G n ×ˢ DiGraph.pluckSuccs G n).image
          Prod.snd ⊆ G.nodes.erase n := by
        intro x hx
        rw [Finset.mem_image] at hx
        obtain ⟨e, he, rfl⟩ := hx
        rw [Finset.mem_product] at he
        exact pluckSuccs_subset_erase G n hwf he.2
      rw [Finset.union_assoc]
      exact Finset.union_eq_left.mpr (Finset.union_subset h1 h2)
    · intro e
      simp only [DiGraph.pluck, if_pos hn, DiGraph.add_edges_from,
        DiGraph.remove_node, Finset.mem_union, Finset.mem_filter,
        Finset.mem_product]
  · intro hn
    simp [DiGraph.pluck, hn]

/-- Witness for C2: the general characterization applied to the example
graph at node B. -/
theorem pluck_correct_witness :
    (DiGraph.pluck exampleGraph "B").nodes = exampleGraph.nodes.erase "B" ∧
    ∀ e : String × String, e ∈ (DiGraph.pluck exampleGraph "B").edges ↔
      ((e ∈ exampleGraph.edges ∧ e.1 ≠ "B" ∧ e.2 ≠ "B") ∨
       (e.1 ∈ DiGraph.pluckPreds exampleGraph "B" ∧
        e.2 ∈ DiGraph.pluckSuccs exampleGraph "B")) :=
  ((pluck_correct exampleGraph "B" (by decide)).1).1 (by decide)

theorem takeWhile_not_eq_take_findIdx (p : Char → Bool) (l : List Char) :
    l.takeWhile (fun c => !p c) = l.take (l.findIdx p) := by
  induction l with
  | nil => simp
  | cons c t ih =>
    by_cases hc : p c
    · simp [List.takeWhile_cons, List.findIdx_cons, hc]
    · simp [List.takeWhile_cons, List.findIdx_cons, hc, ih]

theorem normName_eq_specStripName (x : String) :
    normName x = specStripName x := by
  rw [normName, specStripName, pinSepSplitHead,
    takeWhile_not_eq_take_findIdx isSepChar]

theorem entryNames_append (l1 l2 : List (Option String)) :
    entryNames (l1 ++ l2) = entryNames l1 ∪ entryNames l2 := by
  simp [entryNames, List.filterMap_append]

theorem parse_requirements_all_flags_eq (req : ReqSection) :
    _parse_requirements req true true true =
      entryNames (specSectionEntries req) := by
  cases req with
  | rnull => simp [_parse_requirements, specSectionEntries, entryNames]
  | rlist entries =>
    by_cases he : entries.isEmpty
    · obtain rfl : entries = [] := List.isEmpty_iff.mp he
      simp [_parse_requirements, specSectionEntries, entryNames]
    · simp [_parse_requirements, he, specSectionEntries, entryNames]
  | rdict b h r => simp [_parse_requirements, specSectionEntries, entryNames]

theorem foldl_union_entryNames (outs : List RecipeOutput) (s : Finset String) :
    outs.foldl (fun acc o =>
        acc ∪ entryNames (specSectionEntries o.requirements)) s =
      s ∪ entryNames (outs.flatMap (fun o => specSectionEntries o.requirements)) := by
  induction outs generalizing s with
  | nil => simp [entryNames]
  | cons o t ih =>
    simp only [List.foldl_cons, List.flatMap_cons, entryNames_append, ih]
    rw [Finset.union_assoc]

/-- C3: with every flag enabled, get_requirements computes exactly the
set described by the spec: take the entries of the top-level section and
of every output section, drop the null entries, strip each remaining
entry at the first occurrence of a space, greater, less, equals or
opening bracket, lower-case, and deduplicate.  On the example section the
result is the set of numpy, python and scipy. -/
theorem get_requirements_all_flags :
    (∀ my : MetaYaml,
      get_requirements my true true true true = specRequirements my) ∧
    get_requirements exampleMeta true true true true =
      {"numpy", "python", "scipy"} := by
  constructor
  · intro my
    have hspec : ∀ l : List (Option String),
        ((l.filterMap id).map specStripName).toFinset = entryNames l := by
      intro l
      rw [entryNames]
      congr 1
      exact List.map_congr_left (fun x _ => (normName_eq_specStripName x).symm)
    rw [get_requirements, specRequirements]
    simp only [hspec, entryNames_append, parse_requirements_all_flags_eq,
      if_pos trivial]
    exact foldl_union_entryNames (my.outputs.getD []) _
  · decide

/-- C10: an entry whose first character is a separator (space, greater,
less, equals or opening bracket) normalises to the empty string, and
_parse_requirements keeps that empty string in the returned set: only
null entries are dropped, never empty split results. -/
theorem parse_requirements_sep_head (s : String) (c : Char) (t : List Char)
    (h1 : s.data = c :: t) (h2 : isSepChar c = true) :
    normName s = "" ∧
    "" ∈ _parse_requirements (.rlist [some s]) true true true := by
  have hn : normName s = "" := by
    rw [normName, pinSepSplitHead, h1]
    simp [List.takeWhile_cons, h2]
  refine ⟨hn, ?_⟩
  simp only [_parse_requirements]
  have hne : ([some s] : List (Option String)).isEmpty = false := rfl
  simp [hne, hn]

/-- Witness for C10 at the entry text for a bare linux selector. -/
theorem parse_requirements_sep_head_witness :
    ("[linux]".data = '[' :: ['l', 'i', 'n', 'u', 'x', ']'] ∧
      isSepChar '[' = true) ∧
    (normName "[linux]" = "" ∧
     "" ∈ _parse_requirements (.rlist [some "[linux]"]) true true true) :=
  ⟨⟨rfl, by decide⟩,
    parse_requirements_sep_head "[linux]" '[' ['l', 'i', 'n', 'u', 'x', ']']
      rfl (by decide)⟩
